import Mathlib

/-
Verification of the perception-plan-act control loop of the Sim-1 repository.

Shallow embedding conventions:
* Python floats are modelled as rationals (ℚ) where the code only performs
  field arithmetic and comparisons, and as reals (ℝ) where the code uses
  transcendental functions (atan2, tan, pi).
* `float("inf")` is modelled as `none : Option ℚ` (the planner's "best cost"
  starts at positive infinity and is otherwise always finite).
* numpy's `np.mean` over an empty slice yields NaN; this is modelled as
  `none : Option ℚ` (a non-value), while a nonempty mean is `some` of the
  exact rational fraction.
-/

namespace Sim

/-! ## planner.py -/

/-- Score of a candidate `(angle, cost)` pair, from `pick_heading`
(`src/agent/planner.py`): `obs_w * oc + goal_w * (abs(ang - goal_angle_deg) / 60.0)`. -/
def scoreOf (obs_w goal_w goal_angle_deg : ℚ) (p : ℚ × ℚ) : ℚ :=
  obs_w * p.2 + goal_w * (|p.1 - goal_angle_deg| / 60)

/-- Comparison `s < best_cost` where `best_cost` may be `float("inf")`
(modelled as `none`). -/
def infLt (s : ℚ) : Option ℚ → Bool
  | none => true
  | some v => decide (s < v)

/-- One selection loop of `pick_heading`: scan the candidate list keeping the
best (lowest) score among the candidates satisfying `keep`, starting from an
accumulator `(best_angle, best_cost)`.  Both `for` loops of the Python function
are instances of this scan (the first keeps only candidates with
`oc < safe_thr`, the second keeps everything). -/
def bestScan (sc : ℚ × ℚ → ℚ) (keep : ℚ × ℚ → Bool) :
    List (ℚ × ℚ) → ℚ × Option ℚ → ℚ × Option ℚ
  | [], st => st
  | p :: rest, st =>
    if keep p = true ∧ infLt (sc p) st.2 = true then
      bestScan sc keep rest (p.1, some (sc p))
    else
      bestScan sc keep rest st

/-- `pick_heading` from `src/agent/planner.py`.  First pass considers only
candidates with `oc < safe_thr`; if the best cost is still infinity
(no safe option), a second pass takes the least bad candidate over the whole
field.  Returns `(best_angle, best_cost)` with `best_cost = none` standing
for `float("inf")`. -/
def pick_heading (heading_costs : List (ℚ × ℚ)) (goal_angle_deg obs_w goal_w safe_thr : ℚ) :
    ℚ × Option ℚ :=
  let r := bestScan (scoreOf obs_w goal_w goal_angle_deg)
      (fun p => decide (p.2 < safe_thr)) heading_costs (0, none)
  match r.2 with
  | some _ => r
  | none => bestScan (scoreOf obs_w goal_w goal_angle_deg) (fun _ => true) heading_costs r

/-- `step_from_heading` from `src/agent/planner.py`: the identity packaging of
a chosen angle and step distance into a `(turn, distance)` command. -/
def step_from_heading (angle_deg step_dist : ℚ) : ℚ × ℚ :=
  (angle_deg, step_dist)

/-- `close_to_goal` from `src/agent/planner.py`.  The source compares
`(dx*dx + dz*dz) ** 0.5 <= radius`; over ℚ we use the equivalent squared
comparison `dx*dx + dz*dz <= radius*radius` (equivalent whenever
`0 ≤ radius`; the navigator always uses `radius = 3`). -/
def close_to_goal (pos goal : ℚ × ℚ) (radius : ℚ) : Bool :=
  let dx := goal.1 - pos.1
  let dz := goal.2 - pos.2
  decide (dx * dx + dz * dz ≤ radius * radius)

/-! ### Characterization of the selection scan

`bestScan` either leaves the accumulator unchanged (no kept candidate beats
it) or returns the *first* kept candidate achieving the minimum score:
strictly better than every kept candidate before it, and at least as good as
every kept candidate after it. -/

theorem bestScan_spec (sc : ℚ × ℚ → ℚ) (keep : ℚ × ℚ → Bool) :
    ∀ (l : List (ℚ × ℚ)) (st : ℚ × Option ℚ),
      (bestScan sc keep l st = st ∧
        ∀ q ∈ l, keep q = true → infLt (sc q) st.2 = false) ∨
      (∃ l1 p l2, l = l1 ++ p :: l2 ∧ keep p = true ∧ infLt (sc p) st.2 = true ∧
        bestScan sc keep l st = (p.1, some (sc p)) ∧
        (∀ q ∈ l1, keep q = true → sc p < sc q) ∧
        (∀ q ∈ l2, keep q = true → sc p ≤ sc q)) := by
  intro l
  induction l with
  | nil =>
    intro st
    exact Or.inl ⟨rfl, by simp⟩
  | cons a rest ih =>
    intro st
    by_cases hc : keep a = true ∧ infLt (sc a) st.2 = true
    · have hstep : bestScan sc keep (a :: rest) st
          = bestScan sc keep rest (a.1, some (sc a)) := by
        simp only [bestScan, if_pos hc]
      rcases ih (a.1, some (sc a)) with ⟨heq, hall⟩ |
        ⟨l1, p, l2, hdec, hkp, hlt, hres, hl1, hl2⟩
      · refine Or.inr ⟨[], a, rest, rfl, hc.1, hc.2, ?_, by simp, ?_⟩
        · rw [hstep, heq]
        · intro q hq hk
          have hfalse := hall q hq hk
          have : ¬ sc q < sc a := by
            intro hlt'
            simp [infLt, hlt'] at hfalse
          linarith [not_lt.mp this]
      · have hpa : sc p < sc a := by
          simpa [infLt] using hlt
      -- the winner of the tail scan also beats the old accumulator
        have hlt' : infLt (sc p) st.2 = true := by
          cases hst : st.2 with
          | none => simp [infLt]
          | some v =>
            have hav : sc a < v := by
              have := hc.2
              rw [hst] at this
              simpa [infLt] using this
            simp only [infLt, decide_eq_true_eq]
            linarith
        refine Or.inr ⟨a :: l1, p, l2, by rw [hdec, List.cons_append], hkp, hlt', by rw [hstep]; exact hres,
          ?_, hl2⟩
        intro q hq hk
        rcases List.mem_cons.mp hq with hqa | hql1
        · rw [hqa]; exact hpa
        · exact hl1 q hql1 hk
    · have hstep : bestScan sc keep (a :: rest) st = bestScan sc keep rest st := by
        simp only [bestScan, if_neg hc]
      have hskip : keep a = true → infLt (sc a) st.2 = false := by
        intro hk
        cases h2 : infLt (sc a) st.2 with
        | false => rfl
        | true => exact absurd ⟨hk, h2⟩ hc
      rcases ih st with ⟨heq, hall⟩ | ⟨l1, p, l2, hdec, hkp, hlt, hres, hl1, hl2⟩
      · refine Or.inl ⟨by rw [hstep, heq], ?_⟩
        intro q hq hk
        rcases List.mem_cons.mp hq with hqa | hql
        · rw [hqa]; exact hskip (hqa ▸ hk)
        · exact hall q hql hk
      · refine Or.inr ⟨a :: l1, p, l2, by rw [hdec, List.cons_append], hkp, hlt, by rw [hstep]; exact hres,
          ?_, hl2⟩
        intro q hq hk
        rcases List.mem_cons.mp hq with hqa | hql1
        · subst hqa
          have hif := hskip hk
          cases hst : st.2 with
          | none => rw [hst] at hif; simp [infLt] at hif
          | some v =>
            rw [hst] at hif hlt
            have h1 : ¬ sc q < v := by simpa [infLt] using hif
            have h2 : sc p < v := by simpa [infLt] using hlt
            linarith [not_lt.mp h1]
        · exact hl1 q hql1 hk

/-- Membership in a three-way decomposition. -/
theorem mem_of_decomp {α : Type} {l l1 l2 : List α} {p q : α} (hdec : l = l1 ++ p :: l2)
    (hq : q ∈ l) : q ∈ l1 ∨ q = p ∨ q ∈ l2 := by
  subst hdec
  rcases List.mem_append.mp hq with h | h
  · exact Or.inl h
  · rcases List.mem_cons.mp h with h | h
    · exact Or.inr (Or.inl h)
    · exact Or.inr (Or.inr h)

/-- Claim C1: for every cost field containing at least one entry whose cost is
strictly below the safety threshold, `pick_heading` returns the angle of a safe
entry (cost `< safe_thr`), its score is reported, and that entry minimizes
`obs_w * cost + goal_w * |angle - goal| / 60` among all safe entries (the
winner is the first safe entry achieving the minimum). -/
theorem pick_heading_safe_min (hc : List (ℚ × ℚ)) (g ow gw thr : ℚ)
    (h : ∃ p ∈ hc, p.2 < thr) :
    ∃ l1 p l2, hc = l1 ++ p :: l2 ∧ p.2 < thr ∧
      pick_heading hc g ow gw thr = (p.1, some (scoreOf ow gw g p)) ∧
      (∀ q ∈ hc, q.2 < thr → scoreOf ow gw g p ≤ scoreOf ow gw g q) ∧
      (∀ q ∈ l1, q.2 < thr → scoreOf ow gw g p < scoreOf ow gw g q) := by
  obtain ⟨p0, hp0, hp0thr⟩ := h
  rcases bestScan_spec (scoreOf ow gw g) (fun p => decide (p.2 < thr)) hc (0, none) with
    ⟨heq, hall⟩ | ⟨l1, p, l2, hdec, hkp, hlt, hres, hl1, hl2⟩
  · exfalso
    have := hall p0 hp0 (by simpa using hp0thr)
    simp [infLt] at this
  · have hpthr : p.2 < thr := by simpa using hkp
    have hpick : pick_heading hc g ow gw thr = (p.1, some (scoreOf ow gw g p)) := by
      unfold pick_heading
      rw [hres]
    refine ⟨l1, p, l2, hdec, hpthr, hpick, ?_, ?_⟩
    · intro q hq hqthr
      rcases mem_of_decomp hdec hq with h1 | h2 | h3
      · exact le_of_lt (hl1 q h1 (by simpa using hqthr))
      · rw [h2]
      · exact hl2 q h3 (by simpa using hqthr)
    · intro q hq hqthr
      exact hl1 q hq (by simpa using hqthr)

/-- Witness for C1: the field `[(0, 1/2), (10, 1/10), (20, 1/10)]` with
threshold `35/100` has a safe entry, and the theorem applies to it. -/
theorem pick_heading_safe_min_witness :
    (∃ p ∈ [((0:ℚ), (1:ℚ)/2), (10, 1/10), (20, 1/10)], p.2 < 35/100) ∧
    (∃ l1 p l2, [((0:ℚ), (1:ℚ)/2), (10, 1/10), (20, 1/10)] = l1 ++ p :: l2 ∧ p.2 < 35/100 ∧
      pick_heading [((0:ℚ), (1:ℚ)/2), (10, 1/10), (20, 1/10)] 0 (12/10) (6/10) (35/100)
        = (p.1, some (scoreOf (12/10) (6/10) 0 p)) ∧
      (∀ q ∈ [((0:ℚ), (1:ℚ)/2), (10, 1/10), (20, 1/10)], q.2 < 35/100 →
        scoreOf (12/10) (6/10) 0 p ≤ scoreOf (12/10) (6/10) 0 q) ∧
      (∀ q ∈ l1, q.2 < 35/100 →
        scoreOf (12/10) (6/10) 0 p < scoreOf (12/10) (6/10) 0 q)) :=
  ⟨⟨(10, 1/10), by simp, by norm_num⟩,
    pick_heading_safe_min _ 0 (12/10) (6/10) (35/100) ⟨(10, 1/10), by simp, by norm_num⟩⟩

/-- Claim C2: for every non-empty cost field in which every entry's cost is at
least the safety threshold, `pick_heading` falls back to the global minimum of
the combined score over the entire field, ties broken by the first-encountered
minimum in input order (the first entry achieving the minimum is returned;
first-encountered tie-breaking in the safe tier is
`pick_heading_safe_min`). -/
theorem pick_heading_fallback_min (hc : List (ℚ × ℚ)) (g ow gw thr : ℚ)
    (h1 : hc ≠ []) (h2 : ∀ p ∈ hc, thr ≤ p.2) :
    ∃ l1 p l2, hc = l1 ++ p :: l2 ∧
      pick_heading hc g ow gw thr = (p.1, some (scoreOf ow gw g p)) ∧
      (∀ q ∈ hc, scoreOf ow gw g p ≤ scoreOf ow gw g q) ∧
      (∀ q ∈ l1, scoreOf ow gw g p < scoreOf ow gw g q) := by
  have hpass1 : bestScan (scoreOf ow gw g) (fun p => decide (p.2 < thr)) hc (0, none)
      = ((0 : ℚ), (none : Option ℚ)) := by
    rcases bestScan_spec (scoreOf ow gw g) (fun p => decide (p.2 < thr)) hc (0, none) with
      ⟨heq, _⟩ | ⟨l1, p, l2, hdec, hkp, _, _, _, _⟩
    · exact heq
    · exfalso
      have hpl : p ∈ hc := by rw [hdec]; exact List.mem_append_right _ (List.mem_cons_self _ _)
      have : p.2 < thr := by simpa using hkp
      exact absurd this (not_lt.mpr (h2 p hpl))
  rcases bestScan_spec (scoreOf ow gw g) (fun _ => true) hc ((0 : ℚ), (none : Option ℚ)) with
    ⟨heq, hall⟩ | ⟨l1, p, l2, hdec, _, _, hres, hl1, hl2⟩
  · exfalso
    obtain ⟨q, hq⟩ := List.exists_mem_of_ne_nil hc h1
    have := hall q hq rfl
    simp [infLt] at this
  · have hpick : pick_heading hc g ow gw thr = (p.1, some (scoreOf ow gw g p)) := by
      unfold pick_heading
      rw [hpass1]
      exact hres
    refine ⟨l1, p, l2, hdec, hpick, ?_, fun q hq => hl1 q hq rfl⟩
    intro q hq
    rcases mem_of_decomp hdec hq with hm | hm | hm
    · exact le_of_lt (hl1 q hm rfl)
    · rw [hm]
    · exact hl2 q hm rfl

/-- Witness for C2: a fully unsafe field `[(0, 1), (10, 1/2)]` with threshold
`35/100` exercises the fallback pass. -/
theorem pick_heading_fallback_min_witness :
    ([((0:ℚ), (1:ℚ)), (10, 1/2)] ≠ []) ∧
    (∀ p ∈ [((0:ℚ), (1:ℚ)), (10, 1/2)], (35:ℚ)/100 ≤ p.2) ∧
    (∃ l1 p l2, [((0:ℚ), (1:ℚ)), (10, 1/2)] = l1 ++ p :: l2 ∧
      pick_heading [((0:ℚ), (1:ℚ)), (10, 1/2)] 0 (12/10) (6/10) (35/100)
        = (p.1, some (scoreOf (12/10) (6/10) 0 p)) ∧
      (∀ q ∈ [((0:ℚ), (1:ℚ)), (10, 1/2)],
        scoreOf (12/10) (6/10) 0 p ≤ scoreOf (12/10) (6/10) 0 q) ∧
      (∀ q ∈ l1, scoreOf (12/10) (6/10) 0 p < scoreOf (12/10) (6/10) 0 q)) :=
  ⟨by simp, by intro p hp; fin_cases hp <;> norm_num,
    pick_heading_fallback_min _ 0 (12/10) (6/10) (35/100) (by simp)
      (by intro p hp; fin_cases hp <;> norm_num)⟩

/-- Claim C10: on the empty cost field, `pick_heading` raises no error and
returns angle `0` with score `float("inf")` (modelled as `none`), for every
goal bearing, weights and safety threshold. -/
theorem pick_heading_empty (g ow gw thr : ℚ) :
    pick_heading [] g ow gw thr = (0, none) := rfl

/-! ## Goal bearing (planner.py, real-valued) -/

/-- A world position dictionary `{x, y, z}`. -/
structure Pt3 where
  x : ℝ
  y : ℝ
  z : ℝ

/-- Componentwise translation of a position by a vector. -/
def Pt3.translate (p t : Pt3) : Pt3 :=
  ⟨p.x + t.x, p.y + t.y, p.z + t.z⟩

/-- `math.atan2(y, x)` (two-argument arctangent, C convention). -/
noncomputable def atan2 (y x : ℝ) : ℝ :=
  if 0 < x then Real.arctan (y / x)
  else if x < 0 then
    if 0 ≤ y then Real.arctan (y / x) + Real.pi else Real.arctan (y / x) - Real.pi
  else
    if 0 < y then Real.pi / 2 else if y < 0 then -(Real.pi / 2) else 0

/-- `goal_bearing_from_position` from `src/agent/planner.py`:
`math.degrees(math.atan2(goal.x - pos.x, goal.z - pos.z))`. -/
noncomputable def goal_bearing_from_position (pos goal : Pt3) : ℝ :=
  let dx := goal.x - pos.x
  let dz := goal.z - pos.z
  let angle_rad := atan2 dx dz
  angle_rad * (180 / Real.pi)

/-- Claim C9: the goal bearing is invariant under translating both pose and
goal by the same vector, and is `0` whenever the goal lies directly ahead
along `+z` (equal `x`, strictly greater `z`). -/
theorem goal_bearing_invariance :
    (∀ pos goal t : Pt3,
      goal_bearing_from_position (pos.translate t) (goal.translate t)
        = goal_bearing_from_position pos goal) ∧
    (∀ pos goal : Pt3, goal.x = pos.x → pos.z < goal.z →
      goal_bearing_from_position pos goal = 0) := by
  constructor
  · intro pos goal t
    have hx : (goal.translate t).x - (pos.translate t).x = goal.x - pos.x := by
      simp [Pt3.translate]
    have hz : (goal.translate t).z - (pos.translate t).z = goal.z - pos.z := by
      simp [Pt3.translate]
    simp only [goal_bearing_from_position, hx, hz]
  · intro pos goal h1 h2
    have hdz : 0 < goal.z - pos.z := by linarith
    have hdx : goal.x - pos.x = 0 := by rw [h1]; ring
    simp only [goal_bearing_from_position, atan2, if_pos hdz, hdx, zero_div,
      Real.arctan_zero, zero_mul]

/-- Witness for C9: pose `(0,0,0)`, goal `(0,0,5)` lies directly ahead and has
bearing `0`; translating both by `(1,2,3)` leaves the bearing unchanged. -/
theorem goal_bearing_invariance_witness :
    ((0:ℝ) < 5) ∧
    goal_bearing_from_position ⟨0, 0, 0⟩ ⟨0, 0, 5⟩ = 0 ∧
    goal_bearing_from_position (Pt3.translate ⟨0, 0, 0⟩ ⟨1, 2, 3⟩)
        (Pt3.translate ⟨0, 0, 5⟩ ⟨1, 2, 3⟩)
      = goal_bearing_from_position ⟨0, 0, 0⟩ ⟨0, 0, 5⟩ :=
  ⟨by norm_num,
    goal_bearing_invariance.2 ⟨0, 0, 0⟩ ⟨0, 0, 5⟩ rfl (by norm_num),
    goal_bearing_invariance.1 ⟨0, 0, 0⟩ ⟨0, 0, 5⟩ ⟨1, 2, 3⟩⟩

/-! ## vision.py -/

/-- A binary occupancy mask (the result of `obstacle_mask`): `occ r c = true`
iff the pixel at row `r`, column `c` is nonzero.  Pixels outside the stored
`height × width` window are irrelevant to the sampled band. -/
structure Mask where
  height : ℕ
  width : ℕ
  occ : ℕ → ℕ → Bool

/-- `np.linspace(start, stop, num)` (with endpoint): the i-th sample is
`start + i * (stop - start) / (num - 1)`. -/
noncomputable def linspace (start stop : ℝ) (num : ℕ) : List ℝ :=
  (List.range num).map (fun (i : ℕ) => start + (i : ℝ) * ((stop - start) / ((num : ℝ) - 1)))

/-- Python `int(...)` on a float: truncation toward zero. -/
noncomputable def pyInt (x : ℝ) : ℤ :=
  if 0 ≤ x then ⌊x⌋ else ⌈x⌉

/-- Column index for a candidate heading in `sample_headings`
(`src/agent/vision.py`): `int(np.clip(int(cx + np.tan(rad) * (0.3 * w)), 0, w - 1))`
with `cx = w // 2` and `rad = np.deg2rad(a)`. -/
noncomputable def headingCol (m : Mask) (a : ℝ) : ℕ :=
  let cx : ℕ := m.width / 2
  let rad : ℝ := a * (Real.pi / 180)
  let col : ℤ := pyInt ((cx : ℝ) + Real.tan rad * ((3 / 10) * (m.width : ℝ)))
  (min (max col 0) ((m.width : ℤ) - 1)).toNat

/-- The pixels `band[:, col]` where `band = mask[h // 3 : (h // 3) * 2, :]`
(middle-third horizontal band of the mask). -/
def bandColumn (m : Mask) (col : ℕ) : List Bool :=
  (List.range' (m.height / 3) ((m.height / 3) * 2 - m.height / 3)).map
    (fun r => m.occ r col)

/-- `float(np.mean(col_vals > 0))`: the fraction of `true` entries; `none`
models numpy's NaN on an empty slice. -/
def meanFrac (l : List Bool) : Option ℚ :=
  if l.length = 0 then none
  else some ((l.countP (fun b => b) : ℚ) / (l.length : ℚ))

/-- `sample_headings` from `src/agent/vision.py`: for `num` angles evenly
spaced over `[-fov/2, fov/2]`, the obstacle cost of each angle is the
fraction of occupied pixels in its projected (clamped) column within the
middle-third band. -/
noncomputable def sample_headings (m : Mask) (num : ℕ) (fov_deg : ℝ) :
    List (ℝ × Option ℚ) :=
  (linspace (-(fov_deg / 2)) (fov_deg / 2) num).map
    (fun a => (a, meanFrac (bandColumn m (headingCol m a))))

/-- Counterexample to claim C8 as stated: for a mask of positive height 1
(and width 1), the middle-third band `mask[0:0, :]` is empty, so every
sampled cost is `np.mean` of an empty slice — NaN, not a fraction in
`[0, 1]`. -/
theorem sample_headings_nan_cex :
    ¬ (∀ p ∈ sample_headings ⟨1, 1, fun _ _ => true⟩ 2 90,
        ∃ q : ℚ, p.2 = some q ∧ 0 ≤ q ∧ q ≤ 1) := by
  intro h
  have hband : ∀ col, bandColumn ⟨1, 1, fun _ _ => true⟩ col = [] := fun _ => rfl
  have hmem : ∀ x ∈ sample_headings ⟨1, 1, fun _ _ => true⟩ 2 90, x.2 = none := by
    intro x hx
    unfold sample_headings at hx
    obtain ⟨a, -, rfl⟩ := List.mem_map.mp hx
    simp [hband, meanFrac]
  have hne : sample_headings ⟨1, 1, fun _ _ => true⟩ 2 90 ≠ [] := by
    unfold sample_headings linspace
    simp
  obtain ⟨x, hx⟩ := List.exists_mem_of_ne_nil _ hne
  obtain ⟨q, hq, -, -⟩ := h x hx
  rw [hmem x hx] at hq
  exact Option.noConfusion hq

/-- Claim C8 (amended: `height ≥ 3`, so that the middle-third band
`mask[h//3 : (h//3)*2]` is nonempty): `sample_headings` returns exactly `num`
pairs, with strictly increasing angles all within `[-fov/2, fov/2]`, and every
cost a genuine fraction in `[0, 1]`. -/
theorem sample_headings_invariants (m : Mask) (num : ℕ) (fov : ℝ)
    (hh : 3 ≤ m.height) (hw : 0 < m.width) (hn : 2 ≤ num) (hf : 0 < fov) :
    (sample_headings m num fov).length = num ∧
    List.Pairwise (· < ·) ((sample_headings m num fov).map Prod.fst) ∧
    (∀ p ∈ sample_headings m num fov, -(fov / 2) ≤ p.1 ∧ p.1 ≤ fov / 2) ∧
    (∀ p ∈ sample_headings m num fov, ∃ q : ℚ, p.2 = some q ∧ 0 ≤ q ∧ q ≤ 1) := by
  have hnum1 : (1 : ℝ) ≤ (num : ℝ) - 1 := by
    have : (2 : ℝ) ≤ (num : ℝ) := by exact_mod_cast hn
    linarith
  have hstep : 0 < (fov / 2 - -(fov / 2)) / ((num : ℝ) - 1) := by
    apply div_pos (by linarith) (by linarith)
  refine ⟨?_, ?_, ?_, ?_⟩
  · unfold sample_headings linspace
    rw [List.length_map, List.length_map, List.length_range]
  · have hmap : (sample_headings m num fov).map Prod.fst
        = linspace (-(fov / 2)) (fov / 2) num := by
      unfold sample_headings
      rw [List.map_map]
      exact List.map_id _
    rw [hmap]
    unfold linspace
    rw [List.pairwise_map]
    refine (List.pairwise_lt_range num).imp ?_
    intro i j hij
    have hcast : (i : ℝ) < (j : ℝ) := by exact_mod_cast hij
    have := mul_lt_mul_of_pos_right hcast hstep
    linarith
  · intro p hp
    simp only [sample_headings, linspace, List.mem_map, List.mem_range] at hp
    obtain ⟨a, ⟨i, hi, rfl⟩, rfl⟩ := hp
    have hi' : (i : ℝ) ≤ (num : ℝ) - 1 := by
      have : (i : ℝ) + 1 ≤ (num : ℝ) := by exact_mod_cast hi
      linarith
    dsimp only
    constructor
    · have : 0 ≤ (i : ℝ) * ((fov / 2 - -(fov / 2)) / ((num : ℝ) - 1)) :=
        mul_nonneg (by positivity) (le_of_lt hstep)
      linarith
    · have hle : (i : ℝ) * ((fov / 2 - -(fov / 2)) / ((num : ℝ) - 1))
          ≤ ((num : ℝ) - 1) * ((fov / 2 - -(fov / 2)) / ((num : ℝ) - 1)) :=
        mul_le_mul_of_nonneg_right hi' (le_of_lt hstep)
      have heq : ((num : ℝ) - 1) * ((fov / 2 - -(fov / 2)) / ((num : ℝ) - 1))
          = fov / 2 - -(fov / 2) := by
        field_simp
      rw [heq] at hle
      linarith
  · intro p hp
    simp only [sample_headings, List.mem_map] at hp
    obtain ⟨a, -, rfl⟩ := hp
    have hlen : (bandColumn m (headingCol m a)).length = m.height / 3 := by
      unfold bandColumn
      rw [List.length_map, List.length_range']
      omega
    have hpos : 0 < m.height / 3 := by omega
    refine ⟨((bandColumn m (headingCol m a)).countP (fun b => b) : ℚ)
        / ((bandColumn m (headingCol m a)).length : ℚ), ?_, ?_, ?_⟩
    · unfold meanFrac
      rw [if_neg (by rw [hlen]; omega)]
    · positivity
    · rw [div_le_one (by rw [hlen]; exact_mod_cast hpos)]
      exact_mod_cast List.countP_le_length _

/-- Witness for the amended C8: a 3×1 all-occupied mask with `num = 2`,
`fov = 90` satisfies the hypotheses, and the invariants follow. -/
theorem sample_headings_invariants_witness :
    ((3 ≤ 3) ∧ (0 < 1) ∧ (2 ≤ 2) ∧ ((0 : ℝ) < 90)) ∧
    (sample_headings ⟨3, 1, fun _ _ => true⟩ 2 90).length = 2 ∧
    (∀ p ∈ sample_headings ⟨3, 1, fun _ _ => true⟩ 2 90,
      ∃ q : ℚ, p.2 = some q ∧ 0 ≤ q ∧ q ≤ 1) :=
  ⟨⟨le_refl 3, Nat.one_pos, le_refl 2, by norm_num⟩,
    (sample_headings_invariants ⟨3, 1, fun _ _ => true⟩ 2 90
      (le_refl 3) Nat.one_pos (le_refl 2) (by norm_num)).1,
    (sample_headings_invariants ⟨3, 1, fun _ _ => true⟩ 2 90
      (le_refl 3) Nat.one_pos (le_refl 2) (by norm_num)).2.2.2⟩

/-! ## server.py: corner-name resolution -/

/-- `FLOOR_HALF` from `src/server.py`. -/
def FLOOR_HALF : ℤ := 50

/-- Python `s.upper()`. -/
def pyUpper (s : String) : String :=
  ⟨s.data.map Char.toUpper⟩

/-- Python single-character containment `ch in s`. -/
def pyHasChar (s : String) (ch : Char) : Bool :=
  s.data.contains ch

/-- `corner_to_coords` from `src/server.py`, returning the `(x, z)` pair of
the produced `{x, y: 0, z}` dictionary.  The literal chain of `if` overrides
follows the source exactly. -/
def corner_to_coords (corner : String) (margin : ℤ) : ℤ × ℤ :=
  let c := pyUpper corner
  let x : ℤ := if pyHasChar c 'E' then FLOOR_HALF - margin else -(FLOOR_HALF - margin)
  let z : ℤ := if pyHasChar c 'S' || pyHasChar c 'B' then FLOOR_HALF - margin
    else -(FLOOR_HALF - margin)
  let p := (x, z)
  let p := if c = "NE" ∨ c = "EN" ∨ c = "TR" then
    (FLOOR_HALF - margin, -(FLOOR_HALF - margin)) else p
  let p := if c = "NW" ∨ c = "WN" ∨ c = "TL" then
    (-(FLOOR_HALF - margin), -(FLOOR_HALF - margin)) else p
  let p := if c = "SE" ∨ c = "ES" ∨ c = "BR" then
    (FLOOR_HALF - margin, FLOOR_HALF - margin) else p
  let p := if c = "SW" ∨ c = "WS" ∨ c = "BL" then
    (-(FLOOR_HALF - margin), FLOOR_HALF - margin) else p
  p

/-- The alias dictionary of `Navigator.set_goal` (`src/agent/agent.py`). -/
def navigatorAliasPairs : List (String × String) :=
  [("NE", "TR"), ("NW", "TL"), ("SE", "BR"), ("SW", "BL"),
   ("TR", "TR"), ("TL", "TL"), ("BR", "BR"), ("BL", "BL")]

/-- The literal-corner dictionary of `Navigator.set_goal`
(`src/agent/agent.py`), projected to `(x, z)` (`y` is `0` throughout). -/
def navigatorCornerTable : List (String × (ℤ × ℤ)) :=
  [("TL", (-45, 45)), ("TR", (45, 45)), ("BL", (-45, -45)), ("BR", (45, -45)),
   ("NE", (45, 45)), ("NW", (-45, 45)), ("SE", (45, -45)), ("SW", (-45, -45))]

/-- The polling client's fallback goal resolution
(`mapping.get(corner, "NE")` followed by `corners[alias]`). -/
def navigatorFallbackGoal (corner : String) : Option (ℤ × ℤ) :=
  let ali := (navigatorAliasPairs.lookup corner).getD "NE"
  navigatorCornerTable.lookup ali

/-- Counterexample to claim C3 as stated: for corner "NE" (at the server's
default margin 5), `corner_to_coords` yields `(45, -45)` while the polling
client's literal table yields `(45, 45)` — the two tables disagree on the
sign of `z`. -/
theorem corner_tables_disagree_cex :
    corner_to_coords "NE" 5 = (45, -45) ∧
    navigatorFallbackGoal "NE" = some (45, 45) ∧
    some (corner_to_coords "NE" 5) ≠ navigatorFallbackGoal "NE" := by
  refine ⟨by decide, by decide, by decide⟩

/-- Claim C3 (amended): for every corner name in `{NE, NW, SE, SW}` and every
alias in `{TR, TL, BR, BL}`, the server's `corner_to_coords` (margin 5) and
the polling client's fallback table agree on the `x` coordinate, while their
`z` coordinates are exact negations of each other (the two tables use
opposite `z`-sign conventions for every corner). -/
theorem corner_tables_x_eq_z_neg (c : String)
    (hc : c ∈ ["NE", "NW", "SE", "SW", "TR", "TL", "BR", "BL"]) :
    ∃ p : ℤ × ℤ, navigatorFallbackGoal c = some p ∧
      (corner_to_coords c 5).1 = p.1 ∧ (corner_to_coords c 5).2 = -p.2 := by
  fin_cases hc <;> exact ⟨_, rfl, by decide, by decide⟩

/-- Witness for the amended C3 at corner "NE". -/
theorem corner_tables_x_eq_z_neg_witness :
    ("NE" ∈ ["NE", "NW", "SE", "SW", "TR", "TL", "BR", "BL"]) ∧
    (∃ p : ℤ × ℤ, navigatorFallbackGoal "NE" = some p ∧
      (corner_to_coords "NE" 5).1 = p.1 ∧ (corner_to_coords "NE" 5).2 = -p.2) :=
  ⟨by simp, corner_tables_x_eq_z_neg "NE" (by simp)⟩

/-! ## server.py: push-based vision planner -/

/-- The dictionary produced by `_analyze_image_for_goal_and_obstacles`
(`src/server.py`): pixel-count densities of the mid band (left/center/right
thirds), near-band densities, and the optional goal-marker centroid. -/
structure VisionResult where
  width : ℤ
  left_density : ℤ
  center_density : ℤ
  right_density : ℤ
  goal_centroid : Option ℝ
  goal_visible : Bool
  near_left : ℤ
  near_center : ℤ
  near_right : ℤ

/-- Python float `x % m` (sign of the divisor): `x - m * floor (x / m)`. -/
noncomputable def pyFmod (x m : ℝ) : ℝ :=
  x - m * ⌊x / m⌋

/-- `_plan_move_from_vision` from `src/server.py`, returning the
`(turn, distance)` pair of the produced command dictionary.  Branches in
source order: hard near-field safety, goal-marker steering (with far-field
bias), far-field avoidance, pose-based yaw correction, default forward. -/
noncomputable def plan_move_from_vision (v : VisionResult) (robot_heading_deg : Option ℝ)
    (robot_pos goal_pos : Option Pt3) : ℝ × ℝ :=
  let w := v.width
  let max_turn_deg : ℝ := 30
  let forward_step : ℝ := 1 / 2
  let obstacle_threshold : ℤ := 150
  let near_blocked_threshold : ℤ := 1
  if near_blocked_threshold ≤ v.near_center then
    if v.near_left < v.near_right then (-max_turn_deg, 0) else (max_turn_deg, 0)
  else
    match v.goal_visible, v.goal_centroid with
    | true, some goal_cx =>
      let offset := (goal_cx - (w : ℝ) / 2) / ((w : ℝ) / 2)
      let turn := max (-max_turn_deg) (min max_turn_deg (offset * max_turn_deg))
      let turn :=
        if obstacle_threshold < v.center_density then
          if v.left_density < v.right_density then
            max (-max_turn_deg) (min max_turn_deg (turn - 10))
          else
            max (-max_turn_deg) (min max_turn_deg (turn + 10))
        else turn
      (turn, forward_step)
    | _, _ =>
      if obstacle_threshold < v.center_density then
        if v.left_density < v.right_density then (-max_turn_deg, 0) else (max_turn_deg, 0)
      else
        match robot_heading_deg, robot_pos, goal_pos with
        | some hd, some rp, some gp =>
          let desired_yaw := atan2 (gp.x - rp.x) (gp.z - rp.z) * (180 / Real.pi)
          let yaw_err := pyFmod (desired_yaw - hd + 540) 360 - 180
          let yaw_correction := max (-max_turn_deg) (min max_turn_deg yaw_err)
          if 5 < |yaw_correction| then (yaw_correction, 0) else (0, forward_step)
        | _, _, _ => (0, forward_step)

/-- A vision result whose near-field center third holds one occupied sample
while the left near third is emptier than the right, with a goal marker
visible to the right of center (centroid 200 of width 320). -/
def nearBlockedVision : VisionResult :=
  ⟨320, 0, 0, 0, some 200, true, 0, 1, 5⟩

/-- The same scene with a clear near field. -/
def nearClearVision : VisionResult :=
  ⟨320, 0, 0, 0, some 200, true, 0, 0, 5⟩

/-- Counterexample to claim C5 as stated: with the near-field center blocked
and the *left* side less occupied, the code turns by `-30` — the negative
sign that, per the goal-steering branch (which turns positively toward a goal
right of center, as the `nearClearVision` run shows), means turning *toward*
the less-occupied left side, not away from it. -/
theorem plan_move_near_direction_cex :
    plan_move_from_vision nearBlockedVision none none none = (-30, 0) ∧
    ¬ 0 < (plan_move_from_vision nearBlockedVision none none none).1 ∧
    0 < (plan_move_from_vision nearClearVision none none none).1 := by
  have h1 : plan_move_from_vision nearBlockedVision none none none = (-30, 0) := by
    unfold plan_move_from_vision nearBlockedVision
    norm_num
  have h2 : plan_move_from_vision nearClearVision none none none = (15 / 2, 1 / 2) := by
    unfold plan_move_from_vision nearClearVision
    norm_num
  refine ⟨h1, ?_, ?_⟩
  · rw [h1]
    norm_num
  · rw [h2]
    norm_num

/-- Claim C5 (amended: the turn is *toward* the less-occupied side — the
source comment says "turn-in-place away from denser side"): whenever the
near-field center band holds at least one occupied sample, the command is a
pure rotation (distance exactly 0) of full magnitude `max_turn_deg = 30`,
signed toward the side whose near band is less occupied; the check precedes
goal steering, far-field avoidance and yaw correction, so it holds for every
vision result and every heading/pose/goal argument. -/
theorem plan_move_near_block (v : VisionResult) (hd : Option ℝ)
    (rp gp : Option Pt3) (h : 1 ≤ v.near_center) :
    (plan_move_from_vision v hd rp gp).2 = 0 ∧
    |(plan_move_from_vision v hd rp gp).1| = 30 ∧
    (plan_move_from_vision v hd rp gp).1
      = (if v.near_left < v.near_right then -30 else 30) := by
  unfold plan_move_from_vision
  rw [if_pos h]
  by_cases hlr : v.near_left < v.near_right
  · rw [if_pos hlr, if_pos hlr]
    norm_num
  · rw [if_neg hlr, if_neg hlr]
    norm_num

/-- Witness for the amended C5 at `nearBlockedVision`. -/
theorem plan_move_near_block_witness :
    ((1 : ℤ) ≤ nearBlockedVision.near_center) ∧
    (plan_move_from_vision nearBlockedVision none none none).2 = 0 ∧
    |(plan_move_from_vision nearBlockedVision none none none).1| = 30 ∧
    (plan_move_from_vision nearBlockedVision none none none).1
      = (if nearBlockedVision.near_left < nearBlockedVision.near_right then -30 else 30) :=
  ⟨by decide, (plan_move_near_block nearBlockedVision none none none (by decide)).1,
    (plan_move_near_block nearBlockedVision none none none (by decide)).2.1,
    (plan_move_near_block nearBlockedVision none none none (by decide)).2.2⟩

/-! ## agent.py: Navigator.run episode loop

The loop is modelled over a finite trace of per-tick observations.  Each
observation abstracts what `self.api` returns on that iteration: whether
`capture()` yielded a frame and position, the sampled heading cost field and
goal bearing computed from that frame (the vision pipeline is modelled
separately above), the reported position `(x, z)`, and the collision-counter
reading.  Commands are the `(turn, distance)` arguments of `move_rel` calls,
in issue order. -/

/-- One loop iteration's environment inputs. -/
structure TickObs where
  hasFrame : Bool
  headings : List (ℚ × ℚ)
  bearing : ℚ
  pos : ℚ × ℚ
  coll : ℕ

/-- The fields of `NavigatorConfig` used by `Navigator.run`
(`src/agent/agent.py`). -/
structure NavConfig where
  maxSteps : ℕ
  stepDist : ℚ
  obsW : ℚ
  goalW : ℚ
  safeThr : ℚ
  goalRadius : ℚ

/-- The concrete `NavigatorConfig` constants: `MAX_STEPS = 1200`,
`STEP_DIST = 4.0`, `OBS_W = 1.2`, `GOAL_W = 0.6`, `SAFE_THR = 0.35`,
`GOAL_RADIUS = 3.0`. -/
def navigatorConfig : NavConfig :=
  ⟨1200, 4, 12 / 10, 6 / 10, 35 / 100, 3⟩

/-- Result of one successful-frame iteration body (lines 89-118 of
`src/agent/agent.py`): new `coll_prev`, the collision delta added to the
running total, the `move_rel` commands issued this tick, and whether the
goal check fired (breaking the loop). -/
structure TickResult where
  collPrev : ℕ
  delta : ℕ
  cmds : List (ℚ × ℚ)
  goalHit : Bool

/-- The loop body for a tick with a frame: plan and move, then collision
check (back off by `-STEP_DIST * 0.6` on an increment), then goal check
(stop command `(0, 0)` if close). -/
def tickStep (cfg : NavConfig) (goal : ℚ × ℚ) (collPrev : ℕ) (o : TickObs) : TickResult :=
  let ang := (pick_heading o.headings o.bearing cfg.obsW cfg.goalW cfg.safeThr).1
  let step := step_from_heading ang cfg.stepDist
  let collPrev' := if collPrev < o.coll then o.coll else collPrev
  let delta := if collPrev < o.coll then o.coll - collPrev else 0
  let backCmds : List (ℚ × ℚ) :=
    if collPrev < o.coll then [(0, -(cfg.stepDist * (6 / 10)))] else []
  let goalHit := close_to_goal o.pos goal cfg.goalRadius
  let stopCmds : List (ℚ × ℚ) := if goalHit = true then [(0, 0)] else []
  ⟨collPrev', delta, step :: (backCmds ++ stopCmds), goalHit⟩

theorem tickStep_cmds (cfg : NavConfig) (goal : ℚ × ℚ) (collPrev : ℕ) (o : TickObs) :
    (tickStep cfg goal collPrev o).cmds
      = step_from_heading
          (pick_heading o.headings o.bearing cfg.obsW cfg.goalW cfg.safeThr).1 cfg.stepDist
        :: ((if collPrev < o.coll then [((0 : ℚ), -(cfg.stepDist * (6 / 10)))] else [])
          ++ (if close_to_goal o.pos goal cfg.goalRadius = true
              then [((0 : ℚ), (0 : ℚ))] else [])) := rfl

theorem tickStep_goalHit (cfg : NavConfig) (goal : ℚ × ℚ) (collPrev : ℕ) (o : TickObs) :
    (tickStep cfg goal collPrev o).goalHit = close_to_goal o.pos goal cfg.goalRadius := rfl

theorem tickStep_collPrev (cfg : NavConfig) (goal : ℚ × ℚ) (collPrev : ℕ) (o : TickObs) :
    (tickStep cfg goal collPrev o).collPrev
      = (if collPrev < o.coll then o.coll else collPrev) := rfl

theorem tickStep_delta (cfg : NavConfig) (goal : ℚ × ℚ) (collPrev : ℕ) (o : TickObs) :
    (tickStep cfg goal collPrev o).delta
      = (if collPrev < o.coll then o.coll - collPrev else 0) := rfl

/-- The mutable state of `Navigator.run`'s `while` loop, plus the trace of
issued commands. -/
structure RunState where
  steps : ℕ
  collPrev : ℕ
  total : ℕ
  cmds : List (ℚ × ℚ)

/-- `Navigator.run`'s `while steps < MAX_STEPS` loop over a finite
observation trace.  A tick without a frame sleeps and retries (consuming no
step); the step counter is incremented only after the goal check passes
without firing.  Returns the final state and whether the loop exited via the
goal check (`true`) rather than the step budget or trace end (`false`). -/
def runLoop (cfg : NavConfig) (goal : ℚ × ℚ) : List TickObs → RunState → RunState × Bool
  | [], st => (st, false)
  | o :: rest, st =>
    if st.steps < cfg.maxSteps then
      if o.hasFrame then
        let t := tickStep cfg goal st.collPrev o
        let st' : RunState := ⟨st.steps, t.collPrev, st.total + t.delta, st.cmds ++ t.cmds⟩
        if t.goalHit then (st', true)
        else runLoop cfg goal rest ⟨st'.steps + 1, st'.collPrev, st'.total, st'.cmds⟩
      else runLoop cfg goal rest st
    else (st, false)

/-- Claim C4: (i) per tick, the back-off command `(0, -0.6 * STEP_DIST)` is
issued exactly when the collision reading increased over the previous one;
(ii) across a run whose readings are monotone (the counter is monotonically
non-decreasing) and which neither reaches the goal nor exhausts the step
budget, the accumulated total equals the sum of the (positive) deltas
between consecutive readings, the initial snapshot `collisions0` included. -/
theorem collision_accounting (cfg : NavConfig) (goal : ℚ × ℚ)
    (hstep : 0 < cfg.stepDist) :
    (∀ (collPrev : ℕ) (o : TickObs),
      (((0 : ℚ), -(cfg.stepDist * (6 / 10))) ∈ (tickStep cfg goal collPrev o).cmds
        ↔ collPrev < o.coll)) ∧
    (∀ (trace : List TickObs) (st : RunState),
      (∀ o ∈ trace, o.hasFrame = true) →
      (∀ o ∈ trace, close_to_goal o.pos goal cfg.goalRadius = false) →
      st.steps + trace.length ≤ cfg.maxSteps →
      List.Chain' (· ≤ ·) (st.collPrev :: trace.map TickObs.coll) →
      (runLoop cfg goal trace st).1.total
        = st.total + (((st.collPrev :: trace.map TickObs.coll).zip
            (trace.map TickObs.coll)).map (fun pr => pr.2 - pr.1)).sum) := by
  have hback : cfg.stepDist ≠ -(cfg.stepDist * (6 / 10)) := by
    intro h
    nlinarith
  have hzero : -(cfg.stepDist * (6 / 10)) ≠ 0 := by
    intro h
    nlinarith
  constructor
  · intro collPrev o
    rw [tickStep_cmds]
    constructor
    · intro hmem
      by_contra hcoll
      rw [if_neg hcoll, List.nil_append] at hmem
      rcases List.mem_cons.mp hmem with h | h
      · exact hback (congrArg Prod.snd h).symm
      · by_cases hg : close_to_goal o.pos goal cfg.goalRadius = true
        · rw [if_pos hg] at h
          exact hzero (congrArg Prod.snd (List.mem_singleton.mp h))
        · rw [if_neg hg] at h
          exact List.not_mem_nil _ h
    · intro hcoll
      rw [if_pos hcoll]
      exact List.mem_cons_of_mem _ (List.mem_append_left _ (List.mem_cons_self _ _))
  · intro trace
    induction trace with
    | nil =>
      intro st _ _ _ _
      simp [runLoop]
    | cons o rest ih =>
      intro st hframe hclose hlen hchain
      have hsteps : st.steps < cfg.maxSteps := by
        simp only [List.length_cons] at hlen
        omega
      have hof : o.hasFrame = true := hframe o (List.mem_cons_self _ _)
      have hoc : close_to_goal o.pos goal cfg.goalRadius = false :=
        hclose o (List.mem_cons_self _ _)
      have hle : st.collPrev ≤ o.coll := by
        rcases hchain with _ | ⟨hle, -⟩
        exact hle
      have hprev : (tickStep cfg goal st.collPrev o).collPrev = o.coll := by
        rw [tickStep_collPrev]
        by_cases hcoll : st.collPrev < o.coll
        · rw [if_pos hcoll]
        · rw [if_neg hcoll]
          omega
      have hdelta : (tickStep cfg goal st.collPrev o).delta = o.coll - st.collPrev := by
        rw [tickStep_delta]
        by_cases hcoll : st.collPrev < o.coll
        · rw [if_pos hcoll]
        · rw [if_neg hcoll]
          omega
      rw [runLoop]
      rw [if_pos hsteps, if_pos hof,
        if_neg (by rw [tickStep_goalHit, hoc]; exact Bool.false_ne_true)]
      rw [ih ⟨st.steps + 1, (tickStep cfg goal st.collPrev o).collPrev,
            st.total + (tickStep cfg goal st.collPrev o).delta,
            st.cmds ++ (tickStep cfg goal st.collPrev o).cmds⟩
          (fun q hq => hframe q (List.mem_cons_of_mem _ hq))
          (fun q hq => hclose q (List.mem_cons_of_mem _ hq))
          (by
            simp only [List.length_cons] at hlen
            show st.steps + 1 + rest.length ≤ cfg.maxSteps
            omega)
          (by
            rw [hprev]
            rcases hchain with _ | ⟨-, htail⟩
            exact htail)]
      simp only [hdelta, hprev, List.map_cons, List.zip_cons_cons, List.sum_cons]
      omega

/-- Witness for C4: the spec's example reading sequence `[0,0,1,1,3,3]`
accumulates a total of 3, and a single collision tick carries the back-off
command. -/
theorem collision_accounting_witness :
    (0 < navigatorConfig.stepDist) ∧
    (((0 : ℚ), -(navigatorConfig.stepDist * (6 / 10)))
        ∈ (tickStep navigatorConfig (40, 40) 0 ⟨true, [], 0, (0, 0), 1⟩).cmds
      ↔ 0 < (1 : ℕ)) ∧
    (runLoop navigatorConfig (40, 40)
        ([0, 0, 1, 1, 3, 3].map (fun n => ⟨true, [], 0, (0, 0), n⟩))
        ⟨0, 0, 0, []⟩).1.total = 3 := by
  have hpos : 0 < navigatorConfig.stepDist := by norm_num [navigatorConfig]
  have hclosed : close_to_goal ((0 : ℚ), (0 : ℚ)) (40, 40) navigatorConfig.goalRadius
      = false := by
    simp only [close_to_goal, navigatorConfig, decide_eq_false_iff_not]
    norm_num
  refine ⟨hpos, (collision_accounting navigatorConfig (40, 40) hpos).1 0 _, ?_⟩
  have h := (collision_accounting navigatorConfig (40, 40) hpos).2
      ([0, 0, 1, 1, 3, 3].map (fun n => ⟨true, [], 0, (0, 0), n⟩))
      ⟨0, 0, 0, []⟩
      (by
        intro o ho
        obtain ⟨n, -, rfl⟩ := List.mem_map.mp ho
        rfl)
      (by
        intro o ho
        obtain ⟨n, -, rfl⟩ := List.mem_map.mp ho
        exact hclosed)
      (by simp [navigatorConfig])
      (by
        simp only [List.map_map, List.map_cons, List.map_nil, Function.comp]
        simp [List.chain'_cons])
  rw [h]
  simp only [List.map_map]
  decide

/-! ### Unfolding equations of the episode loop -/

/-- A tick whose goal check fires exits the loop immediately with the stop
command issued and the step counter untouched. -/
theorem runLoop_goal_exit (cfg : NavConfig) (goal : ℚ × ℚ) (o : TickObs)
    (rest : List TickObs) (st : RunState) (h1 : st.steps < cfg.maxSteps)
    (h2 : o.hasFrame = true) (h3 : close_to_goal o.pos goal cfg.goalRadius = true) :
    runLoop cfg goal (o :: rest) st
      = (⟨st.steps, (tickStep cfg goal st.collPrev o).collPrev,
          st.total + (tickStep cfg goal st.collPrev o).delta,
          st.cmds ++ (tickStep cfg goal st.collPrev o).cmds⟩, true) := by
  have hgoal : (tickStep cfg goal st.collPrev o).goalHit = true := by
    rw [tickStep_goalHit]
    exact h3
  rw [runLoop, if_pos h1, if_pos h2]
  simp [hgoal]

/-- A tick whose goal check does not fire advances the loop with the step
counter incremented. -/
theorem runLoop_tick (cfg : NavConfig) (goal : ℚ × ℚ) (o : TickObs)
    (rest : List TickObs) (st : RunState) (h1 : st.steps < cfg.maxSteps)
    (h2 : o.hasFrame = true) (h3 : close_to_goal o.pos goal cfg.goalRadius = false) :
    runLoop cfg goal (o :: rest) st
      = runLoop cfg goal rest
          ⟨st.steps + 1, (tickStep cfg goal st.collPrev o).collPrev,
            st.total + (tickStep cfg goal st.collPrev o).delta,
            st.cmds ++ (tickStep cfg goal st.collPrev o).cmds⟩ := by
  rw [runLoop, if_pos h1, if_pos h2]
  simp [tickStep_goalHit, h3]

/-- A failed frame acquisition consumes no step and issues no command. -/
theorem runLoop_skip (cfg : NavConfig) (goal : ℚ × ℚ) (o : TickObs)
    (rest : List TickObs) (st : RunState) (h1 : st.steps < cfg.maxSteps)
    (h2 : o.hasFrame = false) :
    runLoop cfg goal (o :: rest) st = runLoop cfg goal rest st := by
  rw [runLoop, if_pos h1,
    if_neg (by rw [h2]; exact Bool.false_ne_true)]

/-- The loop returns as soon as the step budget is exhausted. -/
theorem runLoop_stop (cfg : NavConfig) (goal : ℚ × ℚ) (l : List TickObs)
    (st : RunState) (h : ¬ st.steps < cfg.maxSteps) :
    runLoop cfg goal l st = (st, false) := by
  cases l with
  | nil => rw [runLoop]
  | cons o rest => rw [runLoop, if_neg h]

/-- Claim C6 (amended: in the source the goal-proximity check precedes
`steps += 1`, so the tick on which goal proximity holds is *not* counted in
the returned step count): on a RUNNING tick with a frame whose goal check
holds, the loop exits via GOAL_REACHED, the returned `steps` equals the count
*before* the tick, the final command issued is the stop command `(0, 0)`, and
the remainder of the trace is ignored. -/
theorem goal_tick_not_counted (cfg : NavConfig) (goal : ℚ × ℚ) (o : TickObs)
    (rest : List TickObs) (st : RunState)
    (h1 : st.steps < cfg.maxSteps) (h2 : o.hasFrame = true)
    (h3 : close_to_goal o.pos goal cfg.goalRadius = true) :
    (runLoop cfg goal (o :: rest) st).2 = true ∧
    (runLoop cfg goal (o :: rest) st).1.steps = st.steps ∧
    (runLoop cfg goal (o :: rest) st).1.cmds.getLast? = some (0, 0) ∧
    runLoop cfg goal (o :: rest) st = runLoop cfg goal [o] st := by
  have hrun := runLoop_goal_exit cfg goal o rest st h1 h2 h3
  have hrun1 := runLoop_goal_exit cfg goal o [] st h1 h2 h3
  have hcmds : (tickStep cfg goal st.collPrev o).cmds
      = (step_from_heading
            (pick_heading o.headings o.bearing cfg.obsW cfg.goalW cfg.safeThr).1 cfg.stepDist
          :: (if st.collPrev < o.coll then [((0 : ℚ), -(cfg.stepDist * (6 / 10)))] else []))
        ++ [((0 : ℚ), (0 : ℚ))] := by
    rw [tickStep_cmds, if_pos h3, List.cons_append]
  refine ⟨by rw [hrun], by rw [hrun], ?_, by rw [hrun, hrun1]⟩
  rw [hrun]
  show (st.cmds ++ (tickStep cfg goal st.collPrev o).cmds).getLast? = some (0, 0)
  rw [hcmds, ← List.append_assoc, List.getLast?_concat]

/-- A step-budget configuration of 5 (the spec's example) with otherwise the
navigator's constants. -/
def cexConfig : NavConfig :=
  ⟨5, 4, 12 / 10, 6 / 10, 35 / 100, 3⟩

/-- An observation already at the goal (position equal to the goal corner). -/
def cexGoalObs : TickObs :=
  ⟨true, [], 0, (0, 0), 0⟩

/-- Counterexample to claim C6 as stated: a RUNNING tick whose goal check
holds exits to GOAL_REACHED with `steps_taken = 0` — the tick is *not*
counted (the claim would require `steps_taken ≥ 1`). -/
theorem goal_tick_counted_cex :
    (runLoop cexConfig (0, 0) [cexGoalObs] ⟨0, 0, 0, []⟩).2 = true ∧
    (runLoop cexConfig (0, 0) [cexGoalObs] ⟨0, 0, 0, []⟩).1.steps = 0 ∧
    ¬ 1 ≤ (runLoop cexConfig (0, 0) [cexGoalObs] ⟨0, 0, 0, []⟩).1.steps := by
  have h3 : close_to_goal cexGoalObs.pos (0, 0) cexConfig.goalRadius = true := by
    simp only [cexGoalObs, cexConfig, close_to_goal, decide_eq_true_eq]
    norm_num
  have hrun := runLoop_goal_exit cexConfig (0, 0) cexGoalObs [] ⟨0, 0, 0, []⟩
      (by decide) rfl h3
  rw [hrun]
  exact ⟨rfl, rfl, by decide⟩

/-- Witness for the amended C6: a first tick already at the goal, with a
second observation pending, exits with `steps = 0` and a trailing stop
command. -/
theorem goal_tick_not_counted_witness :
    ((⟨0, 0, 0, []⟩ : RunState).steps < navigatorConfig.maxSteps) ∧
    (runLoop navigatorConfig (0, 0)
        [⟨true, [], 0, (0, 0), 0⟩, ⟨true, [], 0, (0, 0), 0⟩] ⟨0, 0, 0, []⟩).2 = true ∧
    (runLoop navigatorConfig (0, 0)
        [⟨true, [], 0, (0, 0), 0⟩, ⟨true, [], 0, (0, 0), 0⟩] ⟨0, 0, 0, []⟩).1.steps = 0 ∧
    (runLoop navigatorConfig (0, 0)
        [⟨true, [], 0, (0, 0), 0⟩, ⟨true, [], 0, (0, 0), 0⟩]
        ⟨0, 0, 0, []⟩).1.cmds.getLast? = some (0, 0) := by
  have h3 : close_to_goal ((0 : ℚ), (0 : ℚ)) (0, 0) navigatorConfig.goalRadius = true := by
    simp only [navigatorConfig, close_to_goal, decide_eq_true_eq]
    norm_num
  have h := goal_tick_not_counted navigatorConfig (0, 0) ⟨true, [], 0, (0, 0), 0⟩
      [⟨true, [], 0, (0, 0), 0⟩] ⟨0, 0, 0, []⟩ (by decide) rfl h3
  exact ⟨by decide, h.1, h.2.1, h.2.2.1⟩

/-- Auxiliary invariant for C7: if every frame-bearing observation is away
from the goal and the trace still holds enough frames to fill the remaining
budget, the loop ends with `steps = maxSteps` and a non-goal exit. -/
theorem runLoop_budget_aux (cfg : NavConfig) (goal : ℚ × ℚ) :
    ∀ (trace : List TickObs) (st : RunState),
      st.steps ≤ cfg.maxSteps →
      (∀ o ∈ trace, o.hasFrame = true → close_to_goal o.pos goal cfg.goalRadius = false) →
      cfg.maxSteps - st.steps ≤ trace.countP (fun o => o.hasFrame) →
      (runLoop cfg goal trace st).1.steps = cfg.maxSteps ∧
      (runLoop cfg goal trace st).2 = false := by
  intro trace
  induction trace with
  | nil =>
    intro st hle _ hcount
    simp only [List.countP_nil] at hcount
    have hst : st.steps = cfg.maxSteps := by omega
    rw [runLoop]
    exact ⟨hst, rfl⟩
  | cons o rest ih =>
    intro st hle hclose hcount
    by_cases hs : st.steps < cfg.maxSteps
    · by_cases hf : o.hasFrame = true
      · have hcl := hclose o (List.mem_cons_self _ _) hf
        rw [runLoop_tick cfg goal o rest st hs hf hcl]
        apply ih
        · show st.steps + 1 ≤ cfg.maxSteps
          omega
        · exact fun q hq => hclose q (List.mem_cons_of_mem _ hq)
        · have hcp : (o :: rest).countP (fun o => o.hasFrame)
              = rest.countP (fun o => o.hasFrame) + 1 :=
            List.countP_cons_of_pos _ _ hf
          rw [hcp] at hcount
          show cfg.maxSteps - (st.steps + 1) ≤ rest.countP (fun o => o.hasFrame)
          omega
      · have hf' : o.hasFrame = false := by
          cases hof : o.hasFrame
          · rfl
          · exact absurd hof hf
        rw [runLoop_skip cfg goal o rest st hs hf']
        apply ih st hle (fun q hq => hclose q (List.mem_cons_of_mem _ hq))
        have hcp : (o :: rest).countP (fun o => o.hasFrame)
            = rest.countP (fun o => o.hasFrame) :=
          List.countP_cons_of_neg _ _ (by rw [hf']; exact Bool.false_ne_true)
        rw [hcp] at hcount
        exact hcount
    · have hst : st.steps = cfg.maxSteps := by omega
      rw [runLoop_stop cfg goal _ st hs]
      exact ⟨hst, rfl⟩

/-- Claim C7: if goal proximity never holds on a frame-bearing tick and the
trace supplies at least `MAX_STEPS` successful frame acquisitions, the loop
terminates with exactly `MAX_STEPS` counted (frame-processing) ticks,
returning `steps_taken = MAX_STEPS` via the step budget (not the goal exit);
and a tick whose capture yields no frame neither increments the step counter
nor terminates the episode. -/
theorem run_step_budget (cfg : NavConfig) (goal : ℚ × ℚ) :
    (∀ (trace : List TickObs) (c0 : ℕ),
      (∀ o ∈ trace, o.hasFrame = true → close_to_goal o.pos goal cfg.goalRadius = false) →
      cfg.maxSteps ≤ trace.countP (fun o => o.hasFrame) →
      (runLoop cfg goal trace ⟨0, c0, 0, []⟩).1.steps = cfg.maxSteps ∧
      (runLoop cfg goal trace ⟨0, c0, 0, []⟩).2 = false) ∧
    (∀ (o : TickObs) (rest : List TickObs) (st : RunState),
      o.hasFrame = false → st.steps < cfg.maxSteps →
      runLoop cfg goal (o :: rest) st = runLoop cfg goal rest st) := by
  constructor
  · intro trace c0 hclose hcount
    exact runLoop_budget_aux cfg goal trace ⟨0, c0, 0, []⟩ (Nat.zero_le _) hclose
      (by simpa using hcount)
  · intro o rest st hf hs
    exact runLoop_skip cfg goal o rest st hs hf

/-- A budget-2 configuration for the C7 witness. -/
def budgetConfig : NavConfig :=
  ⟨2, 4, 12 / 10, 6 / 10, 35 / 100, 3⟩

/-- An observation far from the goal corner `(0, 0)`. -/
def farObs : TickObs :=
  ⟨true, [], 0, (9, 9), 0⟩

/-- An observation whose frame acquisition failed. -/
def noFrameObs : TickObs :=
  ⟨false, [], 0, (0, 0), 0⟩

/-- Witness for C7: with budget 2 and trace `[fail, ok, fail, ok]`, the run
returns `steps = 2` with a non-goal exit, and the failed tick is skipped. -/
theorem run_step_budget_witness :
    (∀ o ∈ [noFrameObs, farObs, noFrameObs, farObs], o.hasFrame = true →
      close_to_goal o.pos (0, 0) budgetConfig.goalRadius = false) ∧
    (budgetConfig.maxSteps
      ≤ [noFrameObs, farObs, noFrameObs, farObs].countP (fun o => o.hasFrame)) ∧
    (runLoop budgetConfig (0, 0) [noFrameObs, farObs, noFrameObs, farObs]
        ⟨0, 0, 0, []⟩).1.steps = budgetConfig.maxSteps ∧
    (runLoop budgetConfig (0, 0) [noFrameObs, farObs, noFrameObs, farObs]
        ⟨0, 0, 0, []⟩).2 = false ∧
    runLoop budgetConfig (0, 0) (noFrameObs :: [farObs]) ⟨0, 0, 0, []⟩
      = runLoop budgetConfig (0, 0) [farObs] ⟨0, 0, 0, []⟩ := by
  have hfar : close_to_goal farObs.pos (0, 0) budgetConfig.goalRadius = false := by
    simp only [farObs, budgetConfig, close_to_goal, decide_eq_false_iff_not]
    norm_num
  have hclose : ∀ o ∈ [noFrameObs, farObs, noFrameObs, farObs], o.hasFrame = true →
      close_to_goal o.pos (0, 0) budgetConfig.goalRadius = false := by
    intro o ho hf
    fin_cases ho
    · exact absurd hf (by rw [show noFrameObs.hasFrame = false from rfl]; exact Bool.false_ne_true)
    · exact hfar
    · exact absurd hf (by rw [show noFrameObs.hasFrame = false from rfl]; exact Bool.false_ne_true)
    · exact hfar
  have h := (run_step_budget budgetConfig (0, 0)).1
      [noFrameObs, farObs, noFrameObs, farObs] 0 hclose (by decide)
  exact ⟨hclose, by decide, h.1, h.2,
    (run_step_budget budgetConfig (0, 0)).2 noFrameObs [farObs] ⟨0, 0, 0, []⟩ rfl (by decide)⟩

end Sim
